import Mathlib

/-!
Shallow embedding of the simulated-annealing vertex-cover heuristic of the
repository (three source variants: a baseline in two identical copies and an
improved variant with a degree-biased move and an early-stop policy).

Vertices are modelled as natural numbers, the graph as the node list and the
edge set handed over by the graph loader.  Randomness (the removed vertex, the
uniform draw in the acceptance test) is modelled nondeterministically: one
loop iteration is a relation between states, a whole run is an inductive
reachability relation.  Temperature is exact rational arithmetic; the
acceptance test compares the uniform draw with a real exponential.
-/

namespace VertexCoverSA

/-- Graph data as the source extracts it: the node list and the edge set. -/
structure Graph where
  nodes : List Nat
  edges : Finset (Nat × Nat)

/-- The node set of a graph. -/
def nodeFinset (g : Graph) : Finset Nat := g.nodes.toFinset

/-- Number of edges with at least one endpoint in the cover
(count_covered_edges in every variant). -/
def count_covered_edges (g : Graph) (cover : Finset Nat) : Nat :=
  (g.edges.filter (fun e => e.1 ∈ cover ∨ e.2 ∈ cover)).card

/-- Degree of a vertex: number of incident edges (graph.degree). -/
def degree (g : Graph) (v : Nat) : Nat :=
  (g.edges.filter (fun e => e.1 = v ∨ e.2 = v)).card

/-- The non-member vertices, in node-list order (node_in_candidates). -/
def node_in_candidates (g : Graph) (cur : Finset Nat) : List Nat :=
  g.nodes.filter (fun n => decide (n ∉ cur))

/-- Left fold keeping the first element of maximal degree, seeded with a. -/
def pickMax (g : Graph) (a : Nat) (l : List Nat) : Nat :=
  l.foldl (fun acc n => if degree g acc < degree g n then n else acc) a

/-- Python max(candidates, key = degree): the first candidate of maximal
degree, none when the list is empty. -/
def maxByDegree (g : Graph) : List Nat → Option Nat
  | [] => none
  | x :: xs => some (pickMax g x xs)

/-- The candidate solution: remove node_out, add node_in (new_solution). -/
def new_solution (cur : Finset Nat) (node_out node_in : Nat) : Finset Nat :=
  insert node_in (cur.erase node_out)

/-- Search state carried across iterations of either variant; the baseline
variant never touches no_improvement. -/
structure SAState where
  current : Finset Nat
  best : Finset Nat
  best_covered : Nat
  temp : ℚ
  no_improvement : Nat
deriving DecidableEq

/-- The score delta the scheduler is given: covered count of the candidate
minus best_covered (new_best_difference in the source). -/
def delta_used (g : Graph) (s : SAState) (node_out node_in : Nat) : ℤ :=
  (count_covered_edges g (new_solution s.current node_out node_in) : ℤ)
    - (s.best_covered : ℤ)

/-- Acceptance test of the improved variant (line 83): the temperature must be
positive, and the move improves on the best score or the uniform draw is
below exp of delta over temperature. -/
def accept_improved (temp : ℚ) (delta : ℤ) (r : ℚ) : Prop :=
  0 < temp ∧ (0 < delta ∨ (r : ℝ) < Real.exp ((delta : ℝ) / (temp : ℝ)))

/-- Acceptance test of the baseline variant (no temperature guard). -/
def accept_base (temp : ℚ) (delta : ℤ) (r : ℚ) : Prop :=
  0 < delta ∨ (r : ℝ) < Real.exp ((delta : ℝ) / (temp : ℝ))

/-- Cooling law of the improved variant: temp times
cooling_rate times (1 - i / max_iteration). -/
def cool_improved (cooling_rate : ℚ) (max_iteration i : Nat) (t : ℚ) : ℚ :=
  t * (cooling_rate * (1 - (i : ℚ) / (max_iteration : ℚ)))

/-- Cooling law of the baseline variant: temp times cooling_rate. -/
def cool_base (cooling_rate : ℚ) (t : ℚ) : ℚ := t * cooling_rate

/-- Overwrite the temperature field. -/
def set_temp (s : SAState) (t : ℚ) : SAState := { s with temp := t }

/-- State update on acceptance in the improved variant: the candidate becomes
current; on strict improvement over best_covered the best snapshot and count
are updated and the stagnation counter reset, otherwise the counter grows. -/
def apply_accept (s : SAState) (ns : Finset Nat) (nc : Nat) : SAState :=
  if s.best_covered < nc then
    { current := ns, best := ns, best_covered := nc, temp := s.temp,
      no_improvement := 0 }
  else
    { s with current := ns, no_improvement := s.no_improvement + 1 }

/-- State update on acceptance in the baseline variant (no counter). -/
def apply_accept_base (s : SAState) (ns : Finset Nat) (nc : Nat) : SAState :=
  if s.best_covered < nc then
    { s with current := ns, best := ns, best_covered := nc }
  else
    { s with current := ns }

/-- The move proposal of the improved variant: node_out is one of the current
members, node_in the first non-member of maximal degree. -/
def proposes (g : Graph) (cur : Finset Nat) (node_out node_in : Nat) : Prop :=
  node_out ∈ cur ∧ maxByDegree g (node_in_candidates g cur) = some node_in

/-- State after acceptance of the move (node_out, node_in), before cooling. -/
def candidate_state (g : Graph) (s : SAState) (node_out node_in : Nat) :
    SAState :=
  apply_accept s (new_solution s.current node_out node_in)
    (count_covered_edges g (new_solution s.current node_out node_in))

/-- One body execution of the improved for-loop at index i (the early-stop
check lives in the run relation).  A member node_out is drawn; when no
non-member exists the body is skipped whole by continue, the cooling line
included; otherwise the degree-maximal non-member is added, the scheduler
decides on new_covered - best_covered, and the temperature is cooled. -/
def iter_improved (g : Graph) (cooling_rate : ℚ) (max_iteration i : Nat)
    (s s2 : SAState) : Prop :=
  ∃ node_out ∈ s.current,
    (node_in_candidates g s.current = [] ∧ s2 = s) ∨
    (∃ node_in, proposes g s.current node_out node_in ∧
      ∃ r : ℚ, 0 ≤ r ∧ r < 1 ∧
        ((accept_improved s.temp (delta_used g s node_out node_in) r ∧
            s2 = set_temp (candidate_state g s node_out node_in)
              (cool_improved cooling_rate max_iteration i s.temp)) ∨
         (¬ accept_improved s.temp (delta_used g s node_out node_in) r ∧
            s2 = set_temp s (cool_improved cooling_rate max_iteration i s.temp))))

/-- One body execution of the baseline for-loop: both swapped vertices are
random draws (node_in from the non-members, which must be nonempty or the
choice raises), acceptance has no temperature guard, cooling is geometric. -/
def iter_base (g : Graph) (cooling_rate : ℚ) (s s2 : SAState) : Prop :=
  ∃ node_out ∈ s.current, ∃ node_in ∈ node_in_candidates g s.current,
    ∃ r : ℚ, 0 ≤ r ∧ r < 1 ∧
      ((accept_base s.temp (delta_used g s node_out node_in) r ∧
          s2 = set_temp
            (apply_accept_base s (new_solution s.current node_out node_in)
              (count_covered_edges g (new_solution s.current node_out node_in)))
            (cool_base cooling_rate s.temp)) ∨
       (¬ accept_base s.temp (delta_used g s node_out node_in) r ∧
          s2 = set_temp s (cool_base cooling_rate s.temp)))

/-- Whole runs of the improved loop from iteration index i: the loop ends when
the index reaches max_iteration, breaks when the stagnation counter has
reached early_stop, and otherwise executes one body and goes on. -/
inductive run_improved (g : Graph) (cooling_rate : ℚ)
    (max_iteration early_stop : Nat) : Nat → SAState → SAState → Prop
  | finished (i : Nat) (s : SAState) (h : max_iteration ≤ i) :
      run_improved g cooling_rate max_iteration early_stop i s s
  | stopped (i : Nat) (s : SAState) (hi : i < max_iteration)
      (hs : early_stop ≤ s.no_improvement) :
      run_improved g cooling_rate max_iteration early_stop i s s
  | step (i : Nat) (s s2 s3 : SAState) (hi : i < max_iteration)
      (hs : s.no_improvement < early_stop)
      (hstep : iter_improved g cooling_rate max_iteration i s s2)
      (hrest : run_improved g cooling_rate max_iteration early_stop (i + 1) s2 s3) :
      run_improved g cooling_rate max_iteration early_stop i s s3

/-- Whole runs of the baseline loop from iteration index i. -/
inductive run_base (g : Graph) (cooling_rate : ℚ) (max_iteration : Nat) :
    Nat → SAState → SAState → Prop
  | finished (i : Nat) (s : SAState) (h : max_iteration ≤ i) :
      run_base g cooling_rate max_iteration i s s
  | step (i : Nat) (s s2 s3 : SAState) (hi : i < max_iteration)
      (hstep : iter_base g cooling_rate s s2)
      (hrest : run_base g cooling_rate max_iteration (i + 1) s2 s3) :
      run_base g cooling_rate max_iteration i s s3

/-- Initial state: random.sample draws a Max_Node element subset of the nodes;
best is (a reference to) the same set, best_covered its coverage, the
temperature the initial one and the stagnation counter zero. -/
def init_state (g : Graph) (MaxNode : Nat) (initial_temp : ℚ)
    (s : SAState) : Prop :=
  s.current ⊆ nodeFinset g ∧ s.current.card = MaxNode ∧
  s.best = s.current ∧ s.best_covered = count_covered_edges g s.current ∧
  s.temp = initial_temp ∧ s.no_improvement = 0

/-- The observable outcome of the improved variant: some initial sample and
some run end in a final state whose best snapshot and count are returned. -/
def returns_improved (g : Graph) (MaxNode : Nat)
    (initial_temp cooling_rate : ℚ) (max_iteration early_stop : Nat)
    (res : Finset Nat × Nat) : Prop :=
  ∃ s0 sf, init_state g MaxNode initial_temp s0 ∧
    run_improved g cooling_rate max_iteration early_stop 0 s0 sf ∧
    res = (sf.best, sf.best_covered)



lemma pickMax_cons (g : Graph) (a x : Nat) (xs : List Nat) :
    pickMax g a (x :: xs) =
      pickMax g (if degree g a < degree g x then x else a) xs := rfl

lemma pickMax_eq_iff (g : Graph) (l : List Nat) : ∀ a v : Nat,
    pickMax g a l = v ↔
      ((v = a ∧ ∀ u ∈ l, degree g u ≤ degree g a) ∨
       (∃ l1 l2, l = l1 ++ v :: l2 ∧ degree g a < degree g v ∧
         (∀ u ∈ l1, degree g u < degree g v) ∧
         (∀ u ∈ l2, degree g u ≤ degree g v))) := by
  induction l with
  | nil =>
    intro a v
    simp [pickMax, eq_comm]
  | cons x xs ih =>
    intro a v
    rw [pickMax_cons]
    by_cases hda : degree g a < degree g x
    · rw [if_pos hda, ih x v]
      constructor
      · rintro (⟨rfl, hmax⟩ | ⟨l1, l2, rfl, hv, h1, h2⟩)
        · exact Or.inr ⟨[], xs, rfl, hda, by simp, hmax⟩
        · refine Or.inr ⟨x :: l1, l2, rfl, lt_trans hda hv, ?_, h2⟩
          intro u hu
          rcases List.mem_cons.mp hu with rfl | hu
          · exact hv
          · exact h1 u hu
      · rintro (⟨rfl, hmax⟩ | ⟨l1, l2, heq, hv, h1, h2⟩)
        · exact absurd (hmax x (List.mem_cons_self x xs)) (not_le.mpr hda)
        · rcases l1 with _ | ⟨y, l1⟩
          · rw [List.nil_append] at heq
            injection heq with h3 h4
            subst h3; subst h4
            exact Or.inl ⟨rfl, h2⟩
          · rw [List.cons_append] at heq
            injection heq with h3 h4
            subst h3; subst h4
            refine Or.inr ⟨l1, l2, rfl, h1 x (List.mem_cons_self x _), ?_, h2⟩
            intro u hu
            exact h1 u (List.mem_cons_of_mem x hu)
    · rw [if_neg hda, ih a v]
      push_neg at hda
      constructor
      · rintro (⟨rfl, hmax⟩ | ⟨l1, l2, rfl, hv, h1, h2⟩)
        · refine Or.inl ⟨rfl, ?_⟩
          intro u hu
          rcases List.mem_cons.mp hu with rfl | hu
          · exact hda
          · exact hmax u hu
        · refine Or.inr ⟨x :: l1, l2, rfl, hv, ?_, h2⟩
          intro u hu
          rcases List.mem_cons.mp hu with rfl | hu
          · exact lt_of_le_of_lt hda hv
          · exact h1 u hu
      · rintro (⟨rfl, hmax⟩ | ⟨l1, l2, heq, hv, h1, h2⟩)
        · refine Or.inl ⟨rfl, ?_⟩
          intro u hu
          exact hmax u (List.mem_cons_of_mem x hu)
        · rcases l1 with _ | ⟨y, l1⟩
          · rw [List.nil_append] at heq
            injection heq with h3 h4
            subst h3; subst h4
            exact absurd hv (not_lt.mpr hda)
          · rw [List.cons_append] at heq
            injection heq with h3 h4
            subst h3; subst h4
            exact Or.inr ⟨l1, l2, rfl, hv, fun u hu => h1 u (List.mem_cons_of_mem x hu), h2⟩

lemma maxByDegree_eq_some_iff (g : Graph) (l : List Nat) (v : Nat) :
    maxByDegree g l = some v ↔
      ∃ l1 l2, l = l1 ++ v :: l2 ∧
        (∀ u ∈ l1, degree g u < degree g v) ∧
        (∀ u ∈ l2, degree g u ≤ degree g v) := by
  cases l with
  | nil =>
    simp [maxByDegree]
  | cons x xs =>
    simp only [maxByDegree, Option.some.injEq]
    rw [pickMax_eq_iff g xs x v]
    constructor
    · rintro (⟨rfl, hmax⟩ | ⟨l1, l2, rfl, hv, h1, h2⟩)
      · exact ⟨[], xs, rfl, by simp, hmax⟩
      · refine ⟨x :: l1, l2, rfl, ?_, h2⟩
        intro u hu
        rcases List.mem_cons.mp hu with rfl | hu
        · exact hv
        · exact h1 u hu
    · rintro ⟨l1, l2, heq, h1, h2⟩
      rcases l1 with _ | ⟨y, l1⟩
      · rw [List.nil_append] at heq
        injection heq with h3 h4
        subst h3; subst h4
        exact Or.inl ⟨rfl, h2⟩
      · rw [List.cons_append] at heq
        injection heq with h3 h4
        subst h3; subst h4
        exact Or.inr ⟨l1, l2, rfl, h1 x (List.mem_cons_self x _),
          fun u hu => h1 u (List.mem_cons_of_mem x hu), h2⟩


lemma mem_node_in_candidates {g : Graph} {cur : Finset Nat} {v : Nat} :
    v ∈ node_in_candidates g cur ↔ v ∈ g.nodes ∧ v ∉ cur := by
  simp [node_in_candidates, List.mem_filter]

lemma maxByDegree_mem {g : Graph} {l : List Nat} {v : Nat}
    (h : maxByDegree g l = some v) : v ∈ l := by
  rcases (maxByDegree_eq_some_iff g l v).mp h with ⟨l1, l2, rfl, -, -⟩
  simp

lemma proposes_not_mem {g : Graph} {cur : Finset Nat} {o n : Nat}
    (h : proposes g cur o n) : n ∉ cur :=
  (mem_node_in_candidates.mp (maxByDegree_mem h.2)).2

lemma card_new_solution {cur : Finset Nat} {o n : Nat}
    (ho : o ∈ cur) (hn : n ∉ cur) : (new_solution cur o n).card = cur.card := by
  have hne : n ∉ cur.erase o := fun hmem => hn (Finset.mem_of_mem_erase hmem)
  rw [new_solution, Finset.card_insert_of_not_mem hne,
    Finset.card_erase_of_mem ho]
  have : 1 ≤ cur.card := Finset.card_pos.mpr ⟨o, ho⟩
  omega

@[simp] lemma set_temp_current (s : SAState) (t : ℚ) :
    (set_temp s t).current = s.current := rfl

@[simp] lemma set_temp_best (s : SAState) (t : ℚ) :
    (set_temp s t).best = s.best := rfl

@[simp] lemma set_temp_best_covered (s : SAState) (t : ℚ) :
    (set_temp s t).best_covered = s.best_covered := rfl

@[simp] lemma set_temp_no_improvement (s : SAState) (t : ℚ) :
    (set_temp s t).no_improvement = s.no_improvement := rfl

@[simp] lemma set_temp_temp (s : SAState) (t : ℚ) :
    (set_temp s t).temp = t := rfl

@[simp] lemma apply_accept_current (s : SAState) (ns : Finset Nat) (nc : Nat) :
    (apply_accept s ns nc).current = ns := by
  unfold apply_accept; split <;> rfl

@[simp] lemma apply_accept_temp (s : SAState) (ns : Finset Nat) (nc : Nat) :
    (apply_accept s ns nc).temp = s.temp := by
  unfold apply_accept; split <;> rfl

lemma iter_improved_cases {g : Graph} {cr : ℚ} {maxIt i : Nat} {s s2 : SAState}
    (h : iter_improved g cr maxIt i s s2) :
    (node_in_candidates g s.current = [] ∧ s2 = s) ∨
    (∃ node_out node_in r, proposes g s.current node_out node_in ∧
      node_out ∈ s.current ∧ (0:ℚ) ≤ r ∧ r < 1 ∧
      ((accept_improved s.temp (delta_used g s node_out node_in) r ∧
          s2 = set_temp (candidate_state g s node_out node_in)
            (cool_improved cr maxIt i s.temp)) ∨
       (¬ accept_improved s.temp (delta_used g s node_out node_in) r ∧
          s2 = set_temp s (cool_improved cr maxIt i s.temp)))) := by
  rcases h with ⟨node_out, hout, hcase | ⟨node_in, hp, r, hr0, hr1, hd⟩⟩
  · exact Or.inl hcase
  · exact Or.inr ⟨node_out, node_in, r, hp, hout, hr0, hr1, hd⟩

lemma candidate_state_card {g : Graph} {s : SAState} {o n : Nat}
    (ho : o ∈ s.current) (hn : n ∉ s.current) :
    (candidate_state g s o n).current.card = s.current.card ∧
    ((candidate_state g s o n).best = s.best ∨
      (candidate_state g s o n).best = new_solution s.current o n) := by
  unfold candidate_state apply_accept
  split <;> simp [card_new_solution ho hn]

lemma iter_improved_card {g : Graph} {cr : ℚ} {maxIt i k : Nat}
    {s s2 : SAState} (h : iter_improved g cr maxIt i s s2)
    (hc : s.current.card = k) (hb : s.best.card = k) :
    s2.current.card = k ∧ s2.best.card = k := by
  rcases iter_improved_cases h with ⟨-, rfl⟩ | ⟨o, n, r, hp, ho, -, -, hd⟩
  · exact ⟨hc, hb⟩
  · have hn : n ∉ s.current := proposes_not_mem hp
    have hcard := card_new_solution ho hn
    rcases hd with ⟨-, rfl⟩ | ⟨-, rfl⟩
    · unfold candidate_state apply_accept
      split <;> simp [hcard, hc, hb]
    · exact ⟨hc, hb⟩

lemma run_improved_ind {g : Graph} {cr : ℚ} {maxIt es : Nat}
    (P : SAState → Prop)
    (hstep : ∀ i s s2, i < maxIt → iter_improved g cr maxIt i s s2 →
      P s → P s2) :
    ∀ {i : Nat} {s sf : SAState},
      run_improved g cr maxIt es i s sf → P s → P sf := by
  intro i s sf h
  induction h with
  | finished => exact id
  | stopped => exact id
  | step j t t2 t3 hj hcnt hone hrest ih =>
      exact fun hp => ih (hstep j t t2 hj hone hp)

lemma iter_improved_best_mono {g : Graph} {cr : ℚ} {maxIt i : Nat}
    {s s2 : SAState} (h : iter_improved g cr maxIt i s s2) :
    s.best_covered ≤ s2.best_covered ∧
    (s2.best_covered = s.best_covered ∨
      (∃ o n, s2.best = new_solution s.current o n ∧
        s.best_covered < count_covered_edges g (new_solution s.current o n) ∧
        s2.best_covered = count_covered_edges g (new_solution s.current o n))) := by
  rcases iter_improved_cases h with ⟨-, rfl⟩ | ⟨o, n, r, hp, ho, -, -, hd⟩
  · exact ⟨le_refl _, Or.inl rfl⟩
  · rcases hd with ⟨-, rfl⟩ | ⟨-, rfl⟩
    · unfold candidate_state apply_accept
      split
      · rename_i hlt
        refine ⟨le_of_lt hlt, Or.inr ⟨o, n, ?_⟩⟩
        simp_all [set_temp]
      · exact ⟨le_refl _, Or.inl rfl⟩
    · exact ⟨le_refl _, Or.inl rfl⟩

lemma iter_base_cases {g : Graph} {cr : ℚ} {s s2 : SAState}
    (h : iter_base g cr s s2) :
    ∃ node_out node_in r, node_out ∈ s.current ∧
      node_in ∈ node_in_candidates g s.current ∧ (0:ℚ) ≤ r ∧ r < 1 ∧
      ((accept_base s.temp (delta_used g s node_out node_in) r ∧
          s2 = set_temp
            (apply_accept_base s (new_solution s.current node_out node_in)
              (count_covered_edges g (new_solution s.current node_out node_in)))
            (cool_base cr s.temp)) ∨
       (¬ accept_base s.temp (delta_used g s node_out node_in) r ∧
          s2 = set_temp s (cool_base cr s.temp))) := by
  rcases h with ⟨o, ho, n, hn, r, hr0, hr1, hd⟩
  exact ⟨o, n, r, ho, hn, hr0, hr1, hd⟩

lemma iter_base_best_mono {g : Graph} {cr : ℚ} {s s2 : SAState}
    (h : iter_base g cr s s2) :
    s.best_covered ≤ s2.best_covered ∧
    (s2.best_covered = s.best_covered ∨
      (∃ o n, s2.best = new_solution s.current o n ∧
        s.best_covered < count_covered_edges g (new_solution s.current o n) ∧
        s2.best_covered = count_covered_edges g (new_solution s.current o n))) := by
  rcases iter_base_cases h with ⟨o, n, r, ho, hn, -, -, hd⟩
  rcases hd with ⟨-, rfl⟩ | ⟨-, rfl⟩
  · unfold apply_accept_base
    split
    · rename_i hlt
      refine ⟨le_of_lt hlt, Or.inr ⟨o, n, ?_⟩⟩
      simp_all [set_temp]
    · exact ⟨le_refl _, Or.inl rfl⟩
  · exact ⟨le_refl _, Or.inl rfl⟩

lemma run_improved_best_mono {g : Graph} {cr : ℚ} {maxIt es i : Nat}
    {s sf : SAState} (h : run_improved g cr maxIt es i s sf) :
    s.best_covered ≤ sf.best_covered := by
  refine run_improved_ind (fun t => s.best_covered ≤ t.best_covered)
    (fun j t t2 hj hone hp => le_trans hp (iter_improved_best_mono hone).1)
    h (le_refl _)

lemma run_base_best_mono {g : Graph} {cr : ℚ} {maxIt i : Nat}
    {s sf : SAState} (h : run_base g cr maxIt i s sf) :
    s.best_covered ≤ sf.best_covered := by
  induction h with
  | finished => exact le_refl _
  | step j t t2 t3 hj hone hrest ih =>
      exact le_trans (iter_base_best_mono hone).1 ih

lemma iter_improved_consistent {g : Graph} {cr : ℚ} {maxIt i : Nat}
    {s s2 : SAState} (h : iter_improved g cr maxIt i s s2)
    (hc : s.best_covered = count_covered_edges g s.best) :
    s2.best_covered = count_covered_edges g s2.best := by
  rcases iter_improved_best_mono h with ⟨-, heq | ⟨o, n, hb, -, hbc⟩⟩
  · rcases iter_improved_cases h with ⟨-, rfl⟩ | ⟨o, n, r, hp, ho, -, -, hd⟩
    · exact hc
    · rcases hd with ⟨-, rfl⟩ | ⟨-, rfl⟩
      · unfold candidate_state apply_accept
        unfold candidate_state apply_accept at heq
        split <;> rename_i hsplit
        · simp_all
        · simpa using hc
      · exact hc
  · rw [hbc, hb]

lemma temp_factor_nonneg {cr : ℚ} {maxIt i : Nat}
    (hcr : 0 ≤ cr) (hi : i < maxIt) :
    0 ≤ cr * (1 - (i : ℚ) / (maxIt : ℚ)) := by
  have hm : (0:ℚ) < (maxIt : ℚ) := by
    have : 0 < maxIt := Nat.pos_of_ne_zero (by omega)
    exact_mod_cast this
  have : (i : ℚ) / (maxIt : ℚ) ≤ 1 := by
    rw [div_le_one hm]
    exact_mod_cast le_of_lt hi
  have h1 : 0 ≤ 1 - (i : ℚ) / (maxIt : ℚ) := by linarith
  exact mul_nonneg hcr h1

lemma iter_improved_frozen {g : Graph} {cr : ℚ} {maxIt i : Nat}
    {s s2 : SAState} (hcr : 0 ≤ cr) (hi : i < maxIt) (ht : s.temp ≤ 0)
    (h : iter_improved g cr maxIt i s s2) :
    s2.current = s.current ∧ s2.best = s.best ∧
    s2.best_covered = s.best_covered ∧
    s2.no_improvement = s.no_improvement ∧ s2.temp ≤ 0 := by
  have hcool : cool_improved cr maxIt i s.temp ≤ 0 := by
    unfold cool_improved
    exact mul_nonpos_iff.mpr (Or.inr ⟨ht, temp_factor_nonneg hcr hi⟩)
  rcases iter_improved_cases h with ⟨-, rfl⟩ | ⟨o, n, r, hp, ho, -, -, hd⟩
  · exact ⟨rfl, rfl, rfl, rfl, ht⟩
  · rcases hd with ⟨hacc, rfl⟩ | ⟨-, rfl⟩
    · exact absurd hacc.1 (not_lt.mpr ht)
    · exact ⟨rfl, rfl, rfl, rfl, hcool⟩

/-- Small path graph 0 - 1 - 2 used by the concrete witnesses. -/
def gW : Graph := ⟨[0, 1, 2], {(0, 1), (1, 2)}⟩

/-- Concrete initial state on gW with the single member 0. -/
def sW : SAState := ⟨{0}, {0}, 1, 1500, 0⟩

lemma init_state_gW : init_state gW 1 1500 sW :=
  ⟨by decide, by decide, by decide, by decide, by decide, by decide⟩

lemma gW_returns : returns_improved gW 1 1500 (9/10) 0 150 ({0}, 1) :=
  ⟨sW, sW, init_state_gW, run_improved.finished 0 sW (le_refl 0), rfl⟩

/-- Claim C9: with max_iteration equal to zero and a valid graph and Max_Node,
the loop never executes, and the returned cover and count are the initial
random Max_Node-subset and its covered-edge count, unchanged. -/
theorem C9_zero_iterations (g : Graph) (MaxNode : Nat) (it cr : ℚ)
    (es : Nat) (s0 sf : SAState)
    (hinit : init_state g MaxNode it s0)
    (hrun : run_improved g cr 0 es 0 s0 sf) :
    sf = s0 ∧ sf.best = s0.current ∧
    sf.best_covered = count_covered_edges g s0.current := by
  have hfs : sf = s0 := by
    cases hrun with
    | finished => rfl
    | stopped i s hi hs => omega
    | step i s s2 s3 hi hs hone hrest => omega
  subst hfs
  exact ⟨rfl, hinit.2.2.1, hinit.2.2.2.1⟩

theorem C9_zero_iterations_witness :
    sW = sW ∧ sW.best = sW.current ∧
    sW.best_covered = count_covered_edges gW sW.current :=
  C9_zero_iterations gW 1 1500 (9/10) 150 sW sW init_state_gW
    (run_improved.finished 0 sW (le_refl 0))

/-- Claim C10: every normally returned pair is internally consistent - the
returned covered-edge count is count_covered_edges of the returned cover. -/
theorem C10_result_consistent (g : Graph) (MaxNode : Nat) (it cr : ℚ)
    (maxIt es : Nat) (cover : Finset Nat) (k : Nat)
    (h : returns_improved g MaxNode it cr maxIt es (cover, k)) :
    k = count_covered_edges g cover := by
  rcases h with ⟨s0, sf, hinit, hrun, hres⟩
  have hinv : sf.best_covered = count_covered_edges g sf.best := by
    refine run_improved_ind
      (fun t => t.best_covered = count_covered_edges g t.best)
      (fun j t t2 hj hone hp => iter_improved_consistent hone hp) hrun ?_
    show s0.best_covered = count_covered_edges g s0.best
    rw [hinit.2.2.1]
    exact hinit.2.2.2.1
  injection hres with h1 h2
  rw [h1, h2]
  exact hinv

theorem C10_result_consistent_witness : 1 = count_covered_edges gW {0} :=
  C10_result_consistent gW 1 1500 (9/10) 0 150 {0} 1 gW_returns

/-- Claim C4: best_covered never decreases, neither across one iteration of
either variant nor across a whole run, and it changes only by being set to
the covered count of a candidate that strictly exceeds it. -/
theorem C4_best_monotone :
    (∀ (g : Graph) (cr : ℚ) (maxIt i : Nat) (s s2 : SAState),
      iter_improved g cr maxIt i s s2 →
      s.best_covered ≤ s2.best_covered ∧
      (s2.best_covered = s.best_covered ∨
        (s.best_covered < s2.best_covered ∧
          ∃ o n, s2.best = new_solution s.current o n ∧
            s2.best_covered =
              count_covered_edges g (new_solution s.current o n)))) ∧
    (∀ (g : Graph) (cr : ℚ) (s s2 : SAState),
      iter_base g cr s s2 →
      s.best_covered ≤ s2.best_covered ∧
      (s2.best_covered = s.best_covered ∨
        (s.best_covered < s2.best_covered ∧
          ∃ o n, s2.best = new_solution s.current o n ∧
            s2.best_covered =
              count_covered_edges g (new_solution s.current o n)))) ∧
    (∀ (g : Graph) (cr : ℚ) (maxIt es i : Nat) (s sf : SAState),
      run_improved g cr maxIt es i s sf →
      s.best_covered ≤ sf.best_covered) ∧
    (∀ (g : Graph) (cr : ℚ) (maxIt i : Nat) (s sf : SAState),
      run_base g cr maxIt i s sf → s.best_covered ≤ sf.best_covered) := by
  refine ⟨?_, ?_, ?_, ?_⟩
  · intro g cr maxIt i s s2 h
    rcases iter_improved_best_mono h with ⟨hle, heq | ⟨o, n, hb, hlt, hbc⟩⟩
    · exact ⟨hle, Or.inl heq⟩
    · exact ⟨hle, Or.inr ⟨by omega, o, n, hb, hbc⟩⟩
  · intro g cr s s2 h
    rcases iter_base_best_mono h with ⟨hle, heq | ⟨o, n, hb, hlt, hbc⟩⟩
    · exact ⟨hle, Or.inl heq⟩
    · exact ⟨hle, Or.inr ⟨by omega, o, n, hb, hbc⟩⟩
  · intro g cr maxIt es i s sf h
    exact run_improved_best_mono h
  · intro g cr maxIt i s sf h
    exact run_base_best_mono h

theorem C4_best_monotone_witness : sW.best_covered ≤ sW.best_covered :=
  C4_best_monotone.2.2.1 gW (9/10) 0 150 0 sW sW
    (run_improved.finished 0 sW (le_refl 0))

/-- Claim C3: with 0 < Max_Node and Max_Node at most the vertex count, the
solution has exactly Max_Node members at the start and the end of a run and
the best snapshot too, and every single applied iteration preserves the
cardinality of both. -/
theorem C3_cardinality :
    (∀ (g : Graph) (MaxNode : Nat) (it cr : ℚ) (maxIt es : Nat)
      (s0 sf : SAState), 0 < MaxNode → MaxNode ≤ (nodeFinset g).card →
      init_state g MaxNode it s0 →
      run_improved g cr maxIt es 0 s0 sf →
      s0.current.card = MaxNode ∧ sf.current.card = MaxNode ∧
        sf.best.card = MaxNode) ∧
    (∀ (g : Graph) (cr : ℚ) (maxIt i MaxNode : Nat) (s s2 : SAState),
      iter_improved g cr maxIt i s s2 →
      s.current.card = MaxNode → s.best.card = MaxNode →
      s2.current.card = MaxNode ∧ s2.best.card = MaxNode) := by
  constructor
  · intro g MaxNode it cr maxIt es s0 sf hpos hle hinit hrun
    have hfin : sf.current.card = MaxNode ∧ sf.best.card = MaxNode := by
      refine run_improved_ind
        (fun t => t.current.card = MaxNode ∧ t.best.card = MaxNode)
        (fun j t t2 hj hone hp => iter_improved_card hone hp.1 hp.2)
        hrun ⟨hinit.2.1, ?_⟩
      show s0.best.card = MaxNode
      rw [hinit.2.2.1]
      exact hinit.2.1
    exact ⟨hinit.2.1, hfin⟩
  · intro g cr maxIt i MaxNode s s2 h hc hb
    exact iter_improved_card h hc hb

theorem C3_cardinality_witness :
    sW.current.card = 1 ∧ sW.current.card = 1 ∧ sW.best.card = 1 := by
  have h := C3_cardinality.1 gW 1 1500 (9/10) 0 150 sW sW
    (by decide) (by decide) init_state_gW
    (run_improved.finished 0 sW (le_refl 0))
  exact h

/-- The score delta as the spec defines it: candidate covered count minus the
best-ever covered count. -/
def scoreDelta_spec_best (new_count best_count : Nat) : ℤ :=
  (new_count : ℤ) - (best_count : ℤ)

/-- The alternative delta the spec rules out: candidate covered count minus
the covered count of the current solution. -/
def scoreDelta_spec_current (g : Graph) (s : SAState) (new_count : Nat) : ℤ :=
  (new_count : ℤ) - (count_covered_edges g s.current : ℤ)

/-- A state in which the current solution covers fewer edges than the best
snapshot - reachable after accepting a non-improving move on gW. -/
def sDiv : SAState := ⟨{0}, {1}, 2, 1500, 0⟩

/-- Claim C1: the delta the scheduler receives is the candidate covered count
minus best_covered on every iteration of both variants, and this differs from
the candidate-minus-current alternative at a state where the current solution
scores below the best snapshot. -/
theorem C1_delta_against_best :
    (∀ (g : Graph) (s : SAState) (node_out node_in : Nat),
      delta_used g s node_out node_in =
        scoreDelta_spec_best
          (count_covered_edges g (new_solution s.current node_out node_in))
          s.best_covered) ∧
    delta_used gW sDiv 0 2 ≠
      scoreDelta_spec_current gW sDiv
        (count_covered_edges gW (new_solution sDiv.current 0 2)) := by
  constructor
  · intro g s node_out node_in
    rfl
  · decide

/-- A state whose temperature is zero, on gW, with best_covered zero so that
the degree-biased move is strictly improving. -/
def sZ : SAState := ⟨{0}, {0}, 0, 0, 0⟩

/-- Counterexample to claim C2: at temperature zero the improved variant
rejects even a strictly improving proposal, so the move is not accepted
regardless of the temperature.  The proposal swapping 0 for 1 on gW improves
the score by two, yet the iteration relation cannot reach the accepted
successor. -/
theorem C2_counterexample :
    (0:ℤ) < delta_used gW sZ 0 1 ∧ proposes gW sZ.current 0 1 ∧
    ¬ iter_improved gW (9/10) 10 0 sZ
        (set_temp (candidate_state gW sZ 0 1)
          (cool_improved (9/10) 10 0 sZ.temp)) := by
  refine ⟨by decide, ⟨by decide, by decide⟩, ?_⟩
  intro h
  rcases iter_improved_cases h with ⟨hc, -⟩ | ⟨o, n, r, hp, ho, -, -, hd⟩
  · exact absurd hc (by decide)
  · have ho0 : o = 0 := by
      have : o ∈ ({0} : Finset Nat) := ho
      simpa using this
    have hn1 : n = 1 := by
      have h2 : maxByDegree gW (node_in_candidates gW sZ.current) =
          some 1 := by decide
      have h3 : (some 1 : Option Nat) = some n := h2.symm.trans hp.2
      injection h3 with h3
      exact h3.symm
    subst ho0; subst hn1
    rcases hd with ⟨hacc, -⟩ | ⟨-, heq⟩
    · exact absurd hacc.1 (by norm_num [sZ])
    · have hcur := congrArg SAState.current heq
      simp only [set_temp_current] at hcur
      exact absurd hcur (by decide)

/-- Claim C2 as amended: the improved acceptance test requires a positive
temperature for every move, improving or not; at positive temperature an
improving move is accepted unconditionally and a non-improving one exactly
when the draw is below exp of delta over temperature; at non-positive
temperature every move is rejected, so an iteration started there changes
nothing but the temperature.  The baseline test has no temperature guard and
accepts improving moves at any temperature. -/
theorem C2_acceptance_rule :
    (∀ (t : ℚ) (d : ℤ) (r : ℚ),
      (0 < t → 0 < d → accept_improved t d r) ∧
      (0 < t → d ≤ 0 →
        (accept_improved t d r ↔ (r : ℝ) < Real.exp ((d : ℝ) / (t : ℝ)))) ∧
      (t ≤ 0 → ¬ accept_improved t d r) ∧
      (0 < d → accept_base t d r)) ∧
    (∀ (g : Graph) (cr : ℚ) (maxIt i : Nat) (s s2 : SAState),
      0 ≤ cr → i < maxIt → s.temp ≤ 0 →
      iter_improved g cr maxIt i s s2 →
      s2.current = s.current ∧ s2.best = s.best ∧
        s2.best_covered = s.best_covered) := by
  constructor
  · intro t d r
    refine ⟨fun ht hd => ⟨ht, Or.inl hd⟩, fun ht hd => ?_, fun ht hacc =>
      absurd hacc.1 (not_lt.mpr ht), fun hd => Or.inl hd⟩
    unfold accept_improved
    constructor
    · rintro ⟨-, hd2 | hr⟩
      · exact absurd hd2 (not_lt.mpr hd)
      · exact hr
    · intro hr
      exact ⟨ht, Or.inr hr⟩
  · intro g cr maxIt i s s2 hcr hi ht h
    have := iter_improved_frozen hcr hi ht h
    exact ⟨this.1, this.2.1, this.2.2.1⟩

theorem C2_acceptance_rule_witness : accept_improved 1 1 0 :=
  ((C2_acceptance_rule.1 1 1 0).1) (by norm_num) (by norm_num)

/-- Two-vertex graph with one edge, used with a full cover. -/
def gPair : Graph := ⟨[0, 1], {(0, 1)}⟩

/-- Full-cover state on gPair: both vertices are members, so no non-member
vertex exists and the move generator reports no move. -/
def sFull : SAState := ⟨{0, 1}, {0, 1}, 1, 1500, 0⟩

lemma iter_sFull : iter_improved gPair (9/10) 1500 0 sFull sFull :=
  ⟨0, by decide, Or.inl ⟨by decide, rfl⟩⟩

/-- Counterexample to claim C5: on an iteration with no available move the
body is skipped whole by continue, so the temperature is NOT cooled - the
only possible successor keeps the temperature at 1500, and the state the
claim predicts (temperature cooled to 1350) is not a successor. -/
theorem C5_counterexample :
    iter_improved gPair (9/10) 1500 0 sFull sFull ∧
    cool_improved (9/10) 1500 0 sFull.temp ≠ sFull.temp ∧
    ¬ iter_improved gPair (9/10) 1500 0 sFull
        (set_temp sFull (cool_improved (9/10) 1500 0 sFull.temp)) := by
  have hne : cool_improved (9/10) 1500 0 sFull.temp ≠ sFull.temp := by
    norm_num [cool_improved, sFull]
  refine ⟨iter_sFull, hne, ?_⟩
  intro h
  rcases iter_improved_cases h with ⟨-, heq⟩ | ⟨o, n, r, hp, -, -, -, -⟩
  · have h2 := congrArg SAState.temp heq
    simp only [set_temp_temp] at h2
    exact absurd h2 hne
  · have hc : node_in_candidates gPair sFull.current = [] := by decide
    have h2 := hp.2
    rw [hc] at h2
    exact Option.noConfusion h2

/-- Claim C5 as amended: when the move generator reports no available move,
the iteration leaves the state completely unchanged - the current and best
solutions and the stagnation counter, but also the temperature, because the
continue statement skips the cooling step; only the iteration index
advances. -/
theorem C5_no_move_skips_cooling (g : Graph) (cr : ℚ) (maxIt i : Nat)
    (s s2 : SAState) (hc : node_in_candidates g s.current = [])
    (h : iter_improved g cr maxIt i s s2) : s2 = s := by
  rcases iter_improved_cases h with ⟨-, heq⟩ | ⟨o, n, r, hp, -, -, -, -⟩
  · exact heq
  · have h2 := hp.2
    rw [hc] at h2
    exact Option.noConfusion h2

theorem C5_no_move_skips_cooling_witness : sFull = sFull :=
  C5_no_move_skips_cooling gPair (9/10) 1500 0 sFull sFull (by decide)
    iter_sFull

@[simp] lemma candidate_state_current (g : Graph) (s : SAState) (o n : Nat) :
    (candidate_state g s o n).current = new_solution s.current o n := by
  unfold candidate_state
  simp

lemma new_solution_ne {cur : Finset Nat} {o n : Nat} (hn : n ∉ cur) :
    new_solution cur o n ≠ cur := by
  intro h
  exact hn (h ▸ Finset.mem_insert_self n (cur.erase o))

/-- Claim C6: in the improved variant the stagnation counter is incremented
exactly on accepted non-improving moves, left unchanged by rejected moves and
skipped iterations, reset to zero by accepted improving moves; and once the
counter has reached the early_stop budget the run stops with no further state
change.  Acceptance is observable as the current solution changing (the added
vertex is never a member beforehand). -/
theorem C6_stagnation_policy :
    (∀ (g : Graph) (cr : ℚ) (maxIt i : Nat) (s s2 : SAState),
      iter_improved g cr maxIt i s s2 →
      (s2.current = s.current → s2.no_improvement = s.no_improvement) ∧
      (s2.current ≠ s.current →
        (s.best_covered < s2.best_covered ∧ s2.no_improvement = 0) ∨
        (s2.best_covered = s.best_covered ∧
          s2.no_improvement = s.no_improvement + 1))) ∧
    (∀ (g : Graph) (cr : ℚ) (maxIt es i : Nat) (s sf : SAState),
      i < maxIt → es ≤ s.no_improvement →
      run_improved g cr maxIt es i s sf → sf = s) := by
  constructor
  · intro g cr maxIt i s s2 h
    rcases iter_improved_cases h with ⟨-, rfl⟩ | ⟨o, n, r, hp, ho, -, -, hd⟩
    · exact ⟨fun _ => rfl, fun hne => absurd rfl hne⟩
    · have hn : n ∉ s.current := proposes_not_mem hp
      rcases hd with ⟨-, rfl⟩ | ⟨-, rfl⟩
      · constructor
        · intro hcur
          rw [set_temp_current, candidate_state_current] at hcur
          exact absurd hcur (new_solution_ne hn)
        · intro hne
          rw [set_temp_best_covered, set_temp_no_improvement]
          unfold candidate_state apply_accept
          split
          · rename_i hlt
            exact Or.inl ⟨hlt, rfl⟩
          · exact Or.inr ⟨rfl, rfl⟩
      · exact ⟨fun _ => rfl, fun hne => absurd rfl hne⟩
  · intro g cr maxIt es i s sf hi hs h
    cases h with
    | finished => rfl
    | stopped => rfl
    | step i s s2 s3 hi2 hs2 hone hrest => omega

/-- A stagnated state: the counter already equals the budget 150. -/
def sStag : SAState := ⟨{0}, {0}, 1, 1500, 150⟩

theorem C6_stagnation_policy_witness : sStag = sStag :=
  C6_stagnation_policy.2 gW (9/10) 5 150 0 sStag sStag (by omega) (by decide)
    (run_improved.stopped 0 sStag (by omega) (by decide))

/-- Claim C7: the improved move generator proposes exactly those pairs where
the removed vertex is any current member (the random draw ranges over the
whole member set) and the added vertex is the non-member of maximal degree,
the first such in node iteration order on a tie. -/
theorem C7_move_generator (g : Graph) (cur : Finset Nat) (o n : Nat) :
    proposes g cur o n ↔
      (o ∈ cur ∧ n ∈ g.nodes ∧ n ∉ cur ∧
        (∀ u ∈ g.nodes, u ∉ cur → degree g u ≤ degree g n) ∧
        ∃ l1 l2, node_in_candidates g cur = l1 ++ n :: l2 ∧
          ∀ u ∈ l1, degree g u < degree g n) := by
  constructor
  · rintro ⟨ho, hmax⟩
    rcases (maxByDegree_eq_some_iff g _ n).mp hmax with ⟨l1, l2, heq, h1, h2⟩
    have hn : n ∈ node_in_candidates g cur := by
      rw [heq]
      simp
    have hn2 := mem_node_in_candidates.mp hn
    refine ⟨ho, hn2.1, hn2.2, ?_, l1, l2, heq, h1⟩
    intro u hu hucur
    have hmem : u ∈ node_in_candidates g cur :=
      mem_node_in_candidates.mpr ⟨hu, hucur⟩
    rw [heq] at hmem
    rcases List.mem_append.mp hmem with hm | hm
    · exact le_of_lt (h1 u hm)
    · rcases List.mem_cons.mp hm with rfl | hm
      · exact le_refl _
      · exact h2 u hm
  · rintro ⟨ho, hnn, hnc, hmaxall, l1, l2, heq, h1⟩
    refine ⟨ho, (maxByDegree_eq_some_iff g _ n).mpr ⟨l1, l2, heq, h1, ?_⟩⟩
    intro u hu
    have hmem : u ∈ node_in_candidates g cur := by
      rw [heq]
      simp [hu]
    have h2 := mem_node_in_candidates.mp hmem
    exact hmaxall u h2.1 h2.2

theorem C7_move_generator_witness : proposes gW {0} 0 1 :=
  (C7_move_generator gW {0} 0 1).mpr
    ⟨by decide, by decide, by decide, by decide, [], [2], by decide, by decide⟩

/-- Counterexample to claim C8: max_iteration equal to zero is one of the
inputs the claim calls invalid, yet the improved variant performs no
validation at all and returns an ordinary Search Outcome (the initial
one-element sample of gW and its covered-edge count). -/
theorem C8_counterexample :
    returns_improved gW 1 1500 (9/10) 0 150 ({0}, 1) := gW_returns

/-- Claim C8 as amended: the code validates nothing.  An initial state only
exists when Max_Node is at most the vertex count (random.sample raises an
untyped exception otherwise, before any loop state exists); max_iteration
and initial_temp are never checked: with max_iteration zero the call returns
the initial sample and its coverage as a normal outcome, and with a
non-positive initial temperature (and non-negative cooling rate) the run
keeps the initial solution, best snapshot and best count to the end,
rejecting every move. -/
theorem C8_no_validation :
    (∀ (g : Graph) (MaxNode : Nat) (it : ℚ) (s0 : SAState),
      init_state g MaxNode it s0 → MaxNode ≤ (nodeFinset g).card) ∧
    (∀ (g : Graph) (MaxNode : Nat) (it cr : ℚ) (es : Nat)
      (res : Finset Nat × Nat),
      returns_improved g MaxNode it cr 0 es res →
      ∃ s0, init_state g MaxNode it s0 ∧
        res = (s0.current, count_covered_edges g s0.current)) ∧
    (∀ (g : Graph) (MaxNode : Nat) (it cr : ℚ) (maxIt es : Nat)
      (s0 sf : SAState), it ≤ 0 → 0 ≤ cr →
      init_state g MaxNode it s0 →
      run_improved g cr maxIt es 0 s0 sf →
      sf.current = s0.current ∧ sf.best = s0.best ∧
        sf.best_covered = s0.best_covered) := by
  refine ⟨?_, ?_, ?_⟩
  · intro g MaxNode it s0 hinit
    rw [← hinit.2.1]
    exact Finset.card_le_card hinit.1
  · intro g MaxNode it cr es res h
    rcases h with ⟨s0, sf, hinit, hrun, hres⟩
    have hfs : sf = s0 := by
      cases hrun with
      | finished => rfl
      | stopped i s hi hs => omega
      | step i s s2 s3 hi hs hone hrest => omega
    subst hfs
    refine ⟨sf, hinit, ?_⟩
    rw [hres, hinit.2.2.1, hinit.2.2.2.1]
  · intro g MaxNode it cr maxIt es s0 sf hit hcr hinit hrun
    have hinv : sf.current = s0.current ∧ sf.best = s0.best ∧
        sf.best_covered = s0.best_covered ∧ sf.temp ≤ 0 := by
      refine run_improved_ind
        (fun t => t.current = s0.current ∧ t.best = s0.best ∧
          t.best_covered = s0.best_covered ∧ t.temp ≤ 0)
        (fun j t t2 hj hone hp => ?_) hrun ⟨rfl, rfl, rfl, ?_⟩
      · have hfro := iter_improved_frozen hcr hj hp.2.2.2 hone
        exact ⟨hfro.1.trans hp.1, hfro.2.1.trans hp.2.1,
          hfro.2.2.1.trans hp.2.2.1, hfro.2.2.2.2⟩
      · show s0.temp ≤ 0
        rw [hinit.2.2.2.2.1]
        exact hit
    exact ⟨hinv.1, hinv.2.1, hinv.2.2.1⟩

theorem C8_no_validation_witness : 1 ≤ (nodeFinset gW).card :=
  C8_no_validation.1 gW 1 1500 sW init_state_gW

end VertexCoverSA
